import Mathlib

/-!
Verification of the Adaptive Column Pagination Engine (ACPE) specification and
of the concurrency-controller utilities of the PDF-Lecture-AI repository.

The pagination engine itself (app/services/text_layout.py and
app/services/pdf_composer.py) is not present under src/ — only its test suite
and callers are — so the ACPE components (CapacityModel, ColumnAllocator,
OverflowDetector, ContinuationPlanner, PaginationEngine) are modelled from the
specification text, with each such definition marked accordingly.  The
concurrency-controller definitions are translated directly from
src/app/services/concurrency_controller.py.

Real (ℚ) arithmetic stands in for Python float arithmetic; Int.floor stands in
for the Python int() truncation, which agrees with floor on the non-negative
values arising under the documented validity conditions.  Text is a List Char.
-/

/-- Modelled from the spec: script mix of the explanation text (section 3,
FontStyle.script_profile).  The engine source is absent from src. -/
inductive ScriptProfile
  | cjkDominant
  | latinDominant
deriving DecidableEq, Repr

/-- Modelled from the spec: content mode of the explanation text (section 3,
FontStyle.content_mode). -/
inductive ContentMode
  | plainText
  | renderedMarkup
deriving DecidableEq, Repr

/-- Modelled from the spec: layout region (section 3).  Width and height are
positive real units; column_count is 1 to 3 for valid configurations. -/
structure LayoutRegion where
  width : ℚ
  height : ℚ
  column_count : ℕ
  column_padding : ℚ
deriving DecidableEq, Repr

/-- Modelled from the spec: font style (section 3). -/
structure FontStyle where
  font_size : ℚ
  line_spacing : ℚ
  script_profile : ScriptProfile
  content_mode : ContentMode
deriving DecidableEq, Repr

/-- Modelled from the spec: capacity estimate for one column (section 3). -/
structure CapacityEstimate where
  chars_per_line : ℕ
  lines_per_column : ℕ
  raw_capacity : ℕ
  effective_capacity : ℕ
deriving DecidableEq, Repr

/-- Modelled from the spec: the configuration-error value of section 7. -/
inductive ConfigError
  | invalidConfig
deriving DecidableEq, Repr

/-- Modelled from the spec: immutable slice into the explanation string,
tagged with its column and page (section 3, TextSegment). -/
structure TextSegment where
  start_offset : ℕ
  end_offset : ℕ
  column_index : ℕ
  page_index : ℕ
deriving DecidableEq, Repr

/-- Modelled from the spec: the segments belonging to one physical page
(section 3, PageBlock). -/
structure PageBlock where
  segments : List TextSegment
  page_index : ℕ
  is_continuation : Bool
deriving DecidableEq, Repr

/-- Modelled from the spec: the result of one paginate call (section 3). -/
structure PaginationResult where
  pages : List PageBlock
  truncated : Bool
  pages_used : ℕ
deriving DecidableEq, Repr

namespace CapacityModel

/-- Modelled from the spec: average character width factor, 0.55 for
CJK-dominant and 0.45 for Latin-dominant script (section 4.1); the values
match the inline reimplementation in src/test_pdf_overflow_fixes.py. -/
def charWidthFactor : ScriptProfile → ℚ
  | .cjkDominant => 11 / 20
  | .latinDominant => 9 / 20

/-- Modelled from the spec: vertical overhead multiplier, 1.15 for
rendered-markup content and 1.0 for plain text (section 4.1). -/
def verticalOverheadMultiplier : ContentMode → ℚ
  | .renderedMarkup => 23 / 20
  | .plainText => 1

/-- Modelled from the spec: safety factor 0.5 applied to the raw capacity
(section 4.1). -/
def safetyFactor : ℚ := 1 / 2

/-- Modelled from the spec: width available to one column.  The spec gives the
capacity formulas in terms of a per-column width; the region width is divided
evenly among the columns (column padding does not enter the formulas of
section 4.1). -/
def columnWidth (region : LayoutRegion) : ℚ :=
  region.width / region.column_count

/-- Modelled from the spec: the static-parameter error condition of
section 4.1 — font_size ≤ 0, line_spacing ≤ 0, region.width ≤ 0 or
region.height ≤ 0. -/
def estimateInvalid (region : LayoutRegion) (style : FontStyle) : Bool :=
  decide (style.font_size ≤ 0) || decide (style.line_spacing ≤ 0) ||
    decide (region.width ≤ 0) || decide (region.height ≤ 0)

/-- Modelled from the spec: height of one rendered line (section 4.1). -/
def lineHeight (style : FontStyle) : ℚ :=
  style.font_size * style.line_spacing * verticalOverheadMultiplier style.content_mode

/-- Modelled from the spec: the capacity formulas of section 4.1, applied
after the validity check has passed. -/
def estimateCore (region : LayoutRegion) (style : FontStyle) : CapacityEstimate :=
  let cpl : ℕ :=
    (⌊columnWidth region / (style.font_size * charWidthFactor style.script_profile)⌋).toNat
  let lpc : ℕ := (⌊region.height / lineHeight style⌋).toNat
  { chars_per_line := cpl
    lines_per_column := lpc
    raw_capacity := cpl * lpc
    effective_capacity := (⌊((cpl * lpc : ℕ) : ℚ) * safetyFactor⌋).toNat }

/-- Modelled from the spec: CapacityModel.estimate (section 4.1), failing with
ConfigError exactly on invalid static parameters. -/
def estimate (region : LayoutRegion) (style : FontStyle) :
    Except ConfigError CapacityEstimate :=
  if estimateInvalid region style then .error .invalidConfig
  else .ok (estimateCore region style)

end CapacityModel

namespace OverflowDetector

/-- Modelled from the spec: OverflowDetector.is_overflowing (section 4.3).
The page is overflowing when the allocated length exceeds 0.85 of the
effective capacity, and a page with zero assigned capacity is always
overflowing. -/
def is_overflowing (allocated_len : ℕ) (capacity : CapacityEstimate) : Bool :=
  decide (capacity.effective_capacity ≤ 0) ||
    decide ((17 : ℚ) / 20 * (capacity.effective_capacity : ℚ) < (allocated_len : ℚ))

end OverflowDetector

namespace ColumnAllocator

/-- Modelled from the spec: greedy fill of a list of per-column limits, in
order, until the remaining text is exhausted or all columns are full
(section 4.2). -/
def fillGreedy : ℕ → List ℕ → List ℕ
  | _, [] => []
  | r, c :: cs => min r c :: fillGreedy (r - min r c) cs

/-- Modelled from the spec: the first column of a page receives at most
floor of 0.75 times its effective capacity (section 4.2). -/
def firstColumnLimit (c : CapacityEstimate) : ℕ :=
  (⌊(3 : ℚ) / 4 * (c.effective_capacity : ℚ)⌋).toNat

/-- Modelled from the spec: the per-column fill limits of one page — the
reserved-headroom limit for column 0, the full effective capacity for the
remaining columns (section 4.2). -/
def limitsOf : List CapacityEstimate → List ℕ
  | [] => []
  | c0 :: cs => firstColumnLimit c0 :: cs.map CapacityEstimate.effective_capacity

/-- Modelled from the spec: ColumnAllocator.allocate (section 4.2). -/
def allocate (remaining_text_len : ℕ) (capacities : List CapacityEstimate) : List ℕ :=
  fillGreedy remaining_text_len (limitsOf capacities)

end ColumnAllocator

namespace ContinuationPlanner

/-- Modelled from the spec: maximum continuation depth (section 4.4). -/
def MAX_DEPTH : ℕ := 50

/-- Modelled from the spec: one allocation step of the planner.  The column
allocator is run over the identical column capacities of the current page;
when it assigns nothing although text remains, a single character is still
placed to guarantee forward progress (sections 4.3 and 4.4). -/
def pageAlloc (est : CapacityEstimate) (ncols r : ℕ) : List ℕ :=
  let a := ColumnAllocator.allocate r (List.replicate ncols est)
  if a.sum = 0 then [min r 1] else a

/-- Modelled from the spec: number of characters one page consumes from a
remainder of length r. -/
def pageConsume (est : CapacityEstimate) (ncols r : ℕ) : ℕ :=
  (pageAlloc est ncols r).sum

/-- Modelled from the spec: remainder length left after one page. -/
def pageStep (est : CapacityEstimate) (ncols : ℕ) (r : ℕ) : ℕ :=
  r - pageConsume est ncols r

/-- Modelled from the spec: the text segments of one page, one segment per
column that received a non-zero allocation, laid out contiguously from the
given offset (sections 3 and 4.2). -/
def mkSegs (page : ℕ) : ℕ → ℕ → List ℕ → List TextSegment
  | _, _, [] => []
  | o, col, a :: rest =>
    if a = 0 then mkSegs page o (col + 1) rest
    else ⟨o, o + a, col, page⟩ :: mkSegs page (o + a) (col + 1) rest

/-- Modelled from the spec: the PLACING / CONTINUING / DONE / TRUNCATED state
machine of section 4.4, driven by the number of pages still allowed (fuel is
MAX_DEPTH + 1 minus the current page index).  On the last allowed page any
residual text is force-placed into the last column of that page and the
truncated flag is set. -/
def planLoop (est : CapacityEstimate) (ncols len : ℕ) :
    ℕ → ℕ → ℕ → List PageBlock × Bool
  | 0, _, _ => ([], false)
  | fuel + 1, o, page =>
    if len - (o + (pageAlloc est ncols (len - o)).sum) = 0 then
      ([⟨mkSegs page o 0 (pageAlloc est ncols (len - o)), page, page != 0⟩], false)
    else if fuel = 0 then
      ([⟨mkSegs page o 0 (pageAlloc est ncols (len - o)) ++
          [⟨o + (pageAlloc est ncols (len - o)).sum, len, ncols - 1, page⟩],
        page, page != 0⟩], true)
    else
      (⟨mkSegs page o 0 (pageAlloc est ncols (len - o)), page, page != 0⟩ ::
        (planLoop est ncols len fuel (o + (pageAlloc est ncols (len - o)).sum) (page + 1)).1,
       (planLoop est ncols len fuel (o + (pageAlloc est ncols (len - o)).sum) (page + 1)).2)

end ContinuationPlanner

namespace PaginationEngine

/-- Modelled from the spec: blank test used for the empty/whitespace-only
short-circuit of section 4.5. -/
def isBlank (text : List Char) : Bool := text.all Char.isWhitespace

/-- Modelled from the spec: the configuration-error condition of the facade —
the static-parameter conditions of section 4.1 together with the non-positive
column count condition of sections 3 and 7. -/
def paginateInvalid (region : LayoutRegion) (style : FontStyle) : Bool :=
  CapacityModel.estimateInvalid region style || decide (region.column_count < 1)

/-- Modelled from the spec: PaginationEngine.paginate (section 4.5). -/
def paginate (text : List Char) (region : LayoutRegion) (style : FontStyle) :
    Except ConfigError PaginationResult :=
  if paginateInvalid region style then .error .invalidConfig
  else if isBlank text then .ok ⟨[], false, 0⟩
  else
    let est := CapacityModel.estimateCore region style
    let plan :=
      ContinuationPlanner.planLoop est region.column_count text.length
        (ContinuationPlanner.MAX_DEPTH + 1) 0 0
    .ok ⟨plan.1, plan.2, plan.1.length⟩

end PaginationEngine

/-- Characters covered by one segment: the slice of the original text between
its start and end offsets. -/
def sliceOf (text : List Char) (s : TextSegment) : List Char :=
  (text.drop s.start_offset).take (s.end_offset - s.start_offset)

/-- All segments of a pagination result, in page order then column order. -/
def segmentsOf (r : PaginationResult) : List TextSegment :=
  (r.pages.map PageBlock.segments).flatten

/-- Concatenation of the slices of all segments of a result, in the order the
result lists them. -/
def renderedText (text : List Char) (r : PaginationResult) : List Char :=
  ((segmentsOf r).map (sliceOf text)).flatten

/-- Concatenation of the slices of a list of segments, in list order. -/
def renderSegs (text : List Char) (segs : List TextSegment) : List Char :=
  (segs.map (sliceOf text)).flatten

/-- Concatenation of the slices of all segments of a list of page blocks. -/
def renderBlocks (text : List Char) (bs : List PageBlock) : List Char :=
  ((bs.map PageBlock.segments).flatten.map (sliceOf text)).flatten

/-- Strict ordering of segments by the lexicographic key
(page_index, column_index, start_offset). -/
def segBefore (s t : TextSegment) : Prop :=
  s.page_index < t.page_index ∨
    (s.page_index = t.page_index ∧
      (s.column_index < t.column_index ∨
        (s.column_index = t.column_index ∧ s.start_offset < t.start_offset)))

instance (s t : TextSegment) : Decidable (segBefore s t) := by
  unfold segBefore
  infer_instance

instance : IsTrans TextSegment segBefore :=
  ⟨fun a b c hab hbc => by unfold segBefore at hab hbc ⊢; omega⟩

/-- Whether a call result is a configuration error. -/
def isConfigError {α : Type} : Except ConfigError α → Bool
  | .error _ => true
  | .ok _ => false

/-- Statistics record of GlobalConcurrencyController, from
src/app/services/concurrency_controller.py (ConcurrencyStats; the wall-clock
last_reset field is outside the embedding). -/
structure ConcurrencyStats where
  current_requests : ℤ
  peak_requests : ℤ
  total_requests : ℤ
  blocked_requests : ℤ
deriving DecidableEq, Repr

/-- Initial statistics, from ConcurrencyStats field defaults. -/
def initStats : ConcurrencyStats :=
  { current_requests := 0, peak_requests := 0, total_requests := 0, blocked_requests := 0 }

/-- Statistics update performed by GlobalConcurrencyController.acquire once
the semaphore has been obtained (concurrency_controller.py lines 100 - 108);
the asyncio suspension itself is outside the embedding. -/
def acquireStats (s : ConcurrencyStats) : ConcurrencyStats :=
  let c := s.current_requests + 1
  { s with
    current_requests := c
    total_requests := s.total_requests + 1
    peak_requests := max s.peak_requests c }

/-- Statistics update performed by GlobalConcurrencyController.release
(concurrency_controller.py line 121). -/
def releaseStats (s : ConcurrencyStats) : ConcurrencyStats :=
  { s with current_requests := max 0 (s.current_requests - 1) }

/-- One call against the controller, for sequences of acquire and release. -/
inductive ControllerOp
  | acquire
  | release
deriving DecidableEq, Repr

/-- Statistics after running a sequence of acquire and release calls. -/
def runOps (s : ConcurrencyStats) : List ControllerOp → ConcurrencyStats
  | [] => s
  | op :: ops =>
    runOps (match op with | .acquire => acquireStats s | .release => releaseStats s) ops

/-- calculate_optimal_concurrency from
src/app/services/concurrency_controller.py lines 179 - 218.  Python float
division is modelled by exact rational division and int() by Int.floor, which
agree for the non-negative values arising here; the Python floor division
rpm_limit // 2 is Int.fdiv. -/
def calculate_optimal_concurrency
    (page_concurrency file_count rpm_limit max_global_concurrency : ℤ) : ℤ × ℤ :=
  let theoretical_max := page_concurrency * file_count
  let step1 : ℤ × ℤ :=
    if max_global_concurrency < theoretical_max then
      let scale_factor : ℚ := (max_global_concurrency : ℚ) / (theoretical_max : ℚ)
      (max 1 ⌊(page_concurrency : ℚ) * scale_factor⌋, file_count)
    else
      (page_concurrency, file_count)
  let safe_rpm : ℤ := max 1 (Int.fdiv rpm_limit 2)
  if safe_rpm < step1.1 * step1.2 then
    let scale_factor : ℚ := (safe_rpm : ℚ) / ((step1.1 * step1.2 : ℤ) : ℚ)
    (max 1 ⌊(step1.1 : ℚ) * scale_factor⌋, step1.2)
  else
    step1

/-! Helper lemmas about the greedy fill and the floor computations. -/

theorem fillGreedy_length (r : ℕ) (ls : List ℕ) :
    (ColumnAllocator.fillGreedy r ls).length = ls.length := by
  induction ls generalizing r with
  | nil => rfl
  | cons c cs ih => simp [ColumnAllocator.fillGreedy, ih]

theorem fillGreedy_sum (r : ℕ) (ls : List ℕ) :
    (ColumnAllocator.fillGreedy r ls).sum = min r ls.sum := by
  induction ls generalizing r with
  | nil => simp [ColumnAllocator.fillGreedy]
  | cons c cs ih =>
    simp only [ColumnAllocator.fillGreedy, List.sum_cons, ih]
    omega

theorem fillGreedy_sum_le (r : ℕ) (ls : List ℕ) :
    (ColumnAllocator.fillGreedy r ls).sum ≤ r := by
  rw [fillGreedy_sum]; omega

theorem fillGreedy_forall₂ (r : ℕ) (ls : List ℕ) :
    List.Forall₂ (· ≤ ·) (ColumnAllocator.fillGreedy r ls) ls := by
  induction ls generalizing r with
  | nil => exact List.Forall₂.nil
  | cons c cs ih =>
    exact List.Forall₂.cons (Nat.min_le_right r c) (ih _)

theorem fillGreedy_getD (r i : ℕ) (ls : List ℕ) (h : i < ls.length) :
    (ColumnAllocator.fillGreedy r ls).getD i 0 =
      min (r - ((ColumnAllocator.fillGreedy r ls).take i).sum) (ls.getD i 0) := by
  induction ls generalizing r i with
  | nil => simp at h
  | cons c cs ih =>
    cases i with
    | zero => simp [ColumnAllocator.fillGreedy]
    | succ j =>
      have hj : j < cs.length := by simpa using h
      simp only [ColumnAllocator.fillGreedy, List.getD_cons_succ, List.take_succ_cons,
        List.sum_cons, ih (r - min r c) j hj]
      omega

theorem firstColumnLimit_eq (c : CapacityEstimate) :
    ColumnAllocator.firstColumnLimit c = 3 * c.effective_capacity / 4 := by
  unfold ColumnAllocator.firstColumnLimit
  rw [show (3 : ℚ) / 4 * (c.effective_capacity : ℚ) =
      ((3 * c.effective_capacity : ℕ) : ℚ) / ((4 : ℕ) : ℚ) by push_cast; ring]
  rw [Rat.floor_natCast_div_natCast]
  omega

theorem halfFloor_eq (n : ℕ) : (⌊((n : ℕ) : ℚ) * CapacityModel.safetyFactor⌋).toNat = n / 2 := by
  unfold CapacityModel.safetyFactor
  rw [show ((n : ℕ) : ℚ) * (1 / 2) = ((n : ℕ) : ℚ) / ((2 : ℕ) : ℚ) by push_cast; ring]
  rw [Rat.floor_natCast_div_natCast]
  omega

theorem estimateCore_chars (region : LayoutRegion) (style : FontStyle) :
    (CapacityModel.estimateCore region style).chars_per_line =
      (⌊CapacityModel.columnWidth region /
        (style.font_size * CapacityModel.charWidthFactor style.script_profile)⌋).toNat := rfl

theorem estimateCore_lines (region : LayoutRegion) (style : FontStyle) :
    (CapacityModel.estimateCore region style).lines_per_column =
      (⌊region.height / CapacityModel.lineHeight style⌋).toNat := rfl

theorem estimateCore_raw (region : LayoutRegion) (style : FontStyle) :
    (CapacityModel.estimateCore region style).raw_capacity =
      (CapacityModel.estimateCore region style).chars_per_line *
        (CapacityModel.estimateCore region style).lines_per_column := rfl

theorem estimateCore_eff (region : LayoutRegion) (style : FontStyle) :
    (CapacityModel.estimateCore region style).effective_capacity =
      (⌊(((CapacityModel.estimateCore region style).chars_per_line *
          (CapacityModel.estimateCore region style).lines_per_column : ℕ) : ℚ) *
        CapacityModel.safetyFactor⌋).toNat := rfl

theorem estimateCore_effective (region : LayoutRegion) (style : FontStyle) :
    (CapacityModel.estimateCore region style).effective_capacity =
      (CapacityModel.estimateCore region style).raw_capacity / 2 := by
  rw [estimateCore_eff, estimateCore_raw]
  exact halfFloor_eq _

/-- C3: for every region and style with positive dimensions, font size and
line spacing, CapacityModel.estimate succeeds and returns
chars_per_line = floor(column_width / (font_size × f)) with f = 0.55 for
CJK-dominant and 0.45 for Latin-dominant script, lines_per_column =
floor(column_height / (font_size × line_spacing × m)) with m = 1.15 in
rendered-markup mode and 1.0 otherwise, and effective_capacity =
floor(chars_per_line × lines_per_column × 0.5). -/
theorem C3_capacity_formulas (region : LayoutRegion) (style : FontStyle)
    (hfs : 0 < style.font_size) (hls : 0 < style.line_spacing)
    (hw : 0 < region.width) (hh : 0 < region.height) :
    CapacityModel.estimate region style = .ok (CapacityModel.estimateCore region style) ∧
    (((CapacityModel.estimateCore region style).chars_per_line : ℤ) =
      ⌊CapacityModel.columnWidth region / (style.font_size *
        (if style.script_profile = ScriptProfile.cjkDominant
          then (55 : ℚ) / 100 else (45 : ℚ) / 100))⌋) ∧
    (((CapacityModel.estimateCore region style).lines_per_column : ℤ) =
      ⌊region.height / (style.font_size * style.line_spacing *
        (if style.content_mode = ContentMode.renderedMarkup
          then (115 : ℚ) / 100 else 1))⌋) ∧
    (((CapacityModel.estimateCore region style).effective_capacity : ℤ) =
      ⌊(((CapacityModel.estimateCore region style).chars_per_line *
          (CapacityModel.estimateCore region style).lines_per_column : ℕ) : ℚ) * (1 / 2)⌋) := by
  have hfac : (0 : ℚ) < CapacityModel.charWidthFactor style.script_profile := by
    cases h : style.script_profile <;> simp [CapacityModel.charWidthFactor]
  have hmul : (0 : ℚ) < CapacityModel.verticalOverheadMultiplier style.content_mode := by
    cases h : style.content_mode <;> simp [CapacityModel.verticalOverheadMultiplier]
  have hcw : (0 : ℚ) ≤ CapacityModel.columnWidth region :=
    div_nonneg hw.le (by positivity)
  have hcpl : (0 : ℤ) ≤
      ⌊CapacityModel.columnWidth region /
        (style.font_size * CapacityModel.charWidthFactor style.script_profile)⌋ :=
    Int.floor_nonneg.mpr (div_nonneg hcw (by positivity))
  have hlpc : (0 : ℤ) ≤ ⌊region.height / CapacityModel.lineHeight style⌋ := by
    refine Int.floor_nonneg.mpr (div_nonneg hh.le ?_)
    unfold CapacityModel.lineHeight
    positivity
  refine ⟨?_, ?_, ?_, ?_⟩
  · unfold CapacityModel.estimate
    have : CapacityModel.estimateInvalid region style = false := by
      unfold CapacityModel.estimateInvalid
      simp only [Bool.or_eq_false_iff, decide_eq_false_iff_not, not_le]
      exact ⟨⟨⟨hfs, hls⟩, hw⟩, hh⟩
    simp [this]
  · rw [estimateCore_chars, Int.toNat_of_nonneg hcpl]
    congr 2
    cases style.script_profile <;> simp [CapacityModel.charWidthFactor] <;> norm_num
  · rw [estimateCore_lines, Int.toNat_of_nonneg hlpc]
    congr 2
    unfold CapacityModel.lineHeight
    cases style.content_mode <;> simp [CapacityModel.verticalOverheadMultiplier] <;> norm_num
  · rw [estimateCore_eff, CapacityModel.safetyFactor,
      Int.toNat_of_nonneg (Int.floor_nonneg.mpr (by positivity))]

/-- Witness for C3 at a concrete configuration: the 400 by 600 region with
font size 20 and line spacing 1.2 used by the source test suite. -/
theorem C3_capacity_formulas_witness :
    CapacityModel.estimate ⟨400, 600, 1, 0⟩ ⟨20, 6 / 5, .cjkDominant, .renderedMarkup⟩ =
      .ok (CapacityModel.estimateCore ⟨400, 600, 1, 0⟩
        ⟨20, 6 / 5, .cjkDominant, .renderedMarkup⟩) ∧
    (((CapacityModel.estimateCore ⟨400, 600, 1, 0⟩
        ⟨20, 6 / 5, .cjkDominant, .renderedMarkup⟩).chars_per_line : ℤ) =
      ⌊CapacityModel.columnWidth ⟨400, 600, 1, 0⟩ / ((20 : ℚ) *
        (if (ScriptProfile.cjkDominant : ScriptProfile) = ScriptProfile.cjkDominant
          then (55 : ℚ) / 100 else (45 : ℚ) / 100))⌋) ∧
    (((CapacityModel.estimateCore ⟨400, 600, 1, 0⟩
        ⟨20, 6 / 5, .cjkDominant, .renderedMarkup⟩).lines_per_column : ℤ) =
      ⌊(600 : ℚ) / ((20 : ℚ) * (6 / 5) *
        (if (ContentMode.renderedMarkup : ContentMode) = ContentMode.renderedMarkup
          then (115 : ℚ) / 100 else 1))⌋) ∧
    (((CapacityModel.estimateCore ⟨400, 600, 1, 0⟩
        ⟨20, 6 / 5, .cjkDominant, .renderedMarkup⟩).effective_capacity : ℤ) =
      ⌊(((CapacityModel.estimateCore ⟨400, 600, 1, 0⟩
            ⟨20, 6 / 5, .cjkDominant, .renderedMarkup⟩).chars_per_line *
          (CapacityModel.estimateCore ⟨400, 600, 1, 0⟩
            ⟨20, 6 / 5, .cjkDominant, .renderedMarkup⟩).lines_per_column : ℕ) : ℚ) * (1 / 2)⌋) :=
  C3_capacity_formulas ⟨400, 600, 1, 0⟩ ⟨20, 6 / 5, .cjkDominant, .renderedMarkup⟩
    (by norm_num) (by norm_num) (by norm_num) (by norm_num)

/-- C4 counterexample: with a single column of effective capacity 100 and 100
characters remaining, the allocation sums to 75 (the reserved-headroom limit
of column 0), not to min(100, 100) = 100 as the claim states. -/
theorem C4_counterexample :
    (ColumnAllocator.allocate 100 [⟨1, 1, 1, 100⟩]).sum ≠
      min 100 (([(⟨1, 1, 1, 100⟩ : CapacityEstimate)]).map
        CapacityEstimate.effective_capacity).sum := by
  have h2 : ColumnAllocator.limitsOf [⟨1, 1, 1, 100⟩] = [75] := by
    simp [ColumnAllocator.limitsOf, firstColumnLimit_eq]
  rw [ColumnAllocator.allocate, h2]
  simp [ColumnAllocator.fillGreedy]

/-- C4 amended: allocate returns one non-negative entry per column, entry 0 is
at most floor(0.75 × capacities[0].effective_capacity), every later entry is
at most its own effective_capacity, the entries are filled greedily in order,
and the sum equals min(remaining_text_len, floor(0.75 × capacities[0].
effective_capacity) + Σ of the remaining effective_capacities) — not
min(remaining_text_len, Σ of all effective_capacities). -/
theorem C4_allocation (remaining_text_len : ℕ) (c0 : CapacityEstimate)
    (cs : List CapacityEstimate) :
    (ColumnAllocator.allocate remaining_text_len (c0 :: cs)).length = (c0 :: cs).length ∧
    (ColumnAllocator.allocate remaining_text_len (c0 :: cs)).sum =
      min remaining_text_len
        ((⌊(3 : ℚ) / 4 * (c0.effective_capacity : ℚ)⌋).toNat +
          (cs.map CapacityEstimate.effective_capacity).sum) ∧
    (∀ x ∈ (ColumnAllocator.allocate remaining_text_len (c0 :: cs)).head?,
      x ≤ (⌊(3 : ℚ) / 4 * (c0.effective_capacity : ℚ)⌋).toNat) ∧
    List.Forall₂ (· ≤ ·) (ColumnAllocator.allocate remaining_text_len (c0 :: cs)).tail
      (cs.map CapacityEstimate.effective_capacity) ∧
    (∀ i, i < (ColumnAllocator.allocate remaining_text_len (c0 :: cs)).length →
      (ColumnAllocator.allocate remaining_text_len (c0 :: cs)).getD i 0 =
        min (remaining_text_len -
            ((ColumnAllocator.allocate remaining_text_len (c0 :: cs)).take i).sum)
          ((ColumnAllocator.limitsOf (c0 :: cs)).getD i 0)) := by
  have hlim : ColumnAllocator.limitsOf (c0 :: cs) =
      ColumnAllocator.firstColumnLimit c0 :: cs.map CapacityEstimate.effective_capacity := rfl
  refine ⟨?_, ?_, ?_, ?_, ?_⟩
  · rw [ColumnAllocator.allocate, fillGreedy_length, hlim]
    simp
  · rw [ColumnAllocator.allocate, fillGreedy_sum, hlim]
    simp only [List.sum_cons]
    congr 1
  · rw [ColumnAllocator.allocate, hlim]
    intro x hx
    simp only [ColumnAllocator.fillGreedy, List.head?_cons, Option.mem_def,
      Option.some.injEq] at hx
    subst hx
    exact le_trans (Nat.min_le_right _ _) (le_of_eq rfl)
  · rw [ColumnAllocator.allocate, hlim]
    simp only [ColumnAllocator.fillGreedy, List.tail_cons]
    exact fillGreedy_forall₂ _ _
  · intro i hi
    rw [ColumnAllocator.allocate] at hi ⊢
    rw [fillGreedy_length, hlim] at hi
    exact fillGreedy_getD remaining_text_len i _ (by rw [hlim]; exact hi)

/-- Witness for C4 amended at remaining length 100 with one column of
effective capacity 100. -/
theorem C4_allocation_witness :
    (ColumnAllocator.allocate 100 [⟨1, 1, 1, 100⟩]).length =
        ([⟨1, 1, 1, 100⟩] : List CapacityEstimate).length ∧
    (ColumnAllocator.allocate 100 [⟨1, 1, 1, 100⟩]).sum =
      min 100
        ((⌊(3 : ℚ) / 4 * (((⟨1, 1, 1, 100⟩ : CapacityEstimate)).effective_capacity : ℚ)⌋).toNat +
          (([] : List CapacityEstimate).map CapacityEstimate.effective_capacity).sum) ∧
    (∀ x ∈ (ColumnAllocator.allocate 100 [⟨1, 1, 1, 100⟩]).head?,
      x ≤ (⌊(3 : ℚ) / 4 * (((⟨1, 1, 1, 100⟩ : CapacityEstimate)).effective_capacity : ℚ)⌋).toNat) ∧
    List.Forall₂ (· ≤ ·) (ColumnAllocator.allocate 100 [⟨1, 1, 1, 100⟩]).tail
      (([] : List CapacityEstimate).map CapacityEstimate.effective_capacity) ∧
    (∀ i, i < (ColumnAllocator.allocate 100 [⟨1, 1, 1, 100⟩]).length →
      (ColumnAllocator.allocate 100 [⟨1, 1, 1, 100⟩]).getD i 0 =
        min (100 - ((ColumnAllocator.allocate 100 [⟨1, 1, 1, 100⟩]).take i).sum)
          ((ColumnAllocator.limitsOf [⟨1, 1, 1, 100⟩]).getD i 0)) :=
  C4_allocation 100 ⟨1, 1, 1, 100⟩ []

theorem pageConsume_pos (est : CapacityEstimate) (ncols r : ℕ) (hr : 0 < r) :
    1 ≤ ContinuationPlanner.pageConsume est ncols r := by
  unfold ContinuationPlanner.pageConsume ContinuationPlanner.pageAlloc
  by_cases h : (ColumnAllocator.allocate r (List.replicate ncols est)).sum = 0
  · simp only [h, if_true]
    simp only [List.sum_cons, List.sum_nil]
    omega
  · simp only [h, if_false]
    omega

theorem pageConsume_le (est : CapacityEstimate) (ncols r : ℕ) :
    ContinuationPlanner.pageConsume est ncols r ≤ r := by
  unfold ContinuationPlanner.pageConsume ContinuationPlanner.pageAlloc
  by_cases h : (ColumnAllocator.allocate r (List.replicate ncols est)).sum = 0
  · simp only [h, if_true, List.sum_cons, List.sum_nil]
    omega
  · simp only [h, if_false]
    exact fillGreedy_sum_le _ _

/-- C5 counterexample: a page of zero effective capacity with nothing
allocated to it is reported overflowing, although 0 > 0.85 × 0 is false, so
the stated "exactly when allocated_len > 0.85 × effective_capacity"
equivalence fails at allocated_len = 0, effective_capacity = 0. -/
theorem C5_counterexample :
    OverflowDetector.is_overflowing 0 ⟨0, 0, 0, 0⟩ = true ∧
    ¬ ((17 : ℚ) / 20 * (((⟨0, 0, 0, 0⟩ : CapacityEstimate)).effective_capacity : ℚ) <
        ((0 : ℕ) : ℚ)) := by
  constructor
  · rfl
  · norm_num

/-- C5 amended: is_overflowing returns true exactly when the effective
capacity is zero or allocated_len > 0.85 × effective_capacity; in particular
a page with effective_capacity ≤ 0 is always reported overflowing; and each
pagination step with text remaining consumes at least one character of the
remaining text (and never more than remains). -/
theorem C5_overflow_threshold (allocated_len : ℕ) (capacity : CapacityEstimate)
    (est : CapacityEstimate) (ncols r : ℕ) (hr : 0 < r) :
    (OverflowDetector.is_overflowing allocated_len capacity = true ↔
      (capacity.effective_capacity = 0 ∨
        (17 : ℚ) / 20 * (capacity.effective_capacity : ℚ) < (allocated_len : ℚ))) ∧
    (capacity.effective_capacity ≤ 0 →
      OverflowDetector.is_overflowing allocated_len capacity = true) ∧
    1 ≤ ContinuationPlanner.pageConsume est ncols r ∧
    ContinuationPlanner.pageConsume est ncols r ≤ r := by
  refine ⟨?_, ?_, pageConsume_pos est ncols r hr, pageConsume_le est ncols r⟩
  · unfold OverflowDetector.is_overflowing
    simp [Nat.le_zero]
  · intro h
    unfold OverflowDetector.is_overflowing
    simp [Nat.le_zero.mp h]

/-- Witness for C5 amended at allocated_len = 1, a capacity of 3, and a
pagination step with one column and one remaining character. -/
theorem C5_overflow_threshold_witness :
    (OverflowDetector.is_overflowing 1 ⟨1, 1, 1, 3⟩ = true ↔
      (((⟨1, 1, 1, 3⟩ : CapacityEstimate)).effective_capacity = 0 ∨
        (17 : ℚ) / 20 * (((⟨1, 1, 1, 3⟩ : CapacityEstimate)).effective_capacity : ℚ) <
          ((1 : ℕ) : ℚ))) ∧
    (((⟨1, 1, 1, 3⟩ : CapacityEstimate)).effective_capacity ≤ 0 →
      OverflowDetector.is_overflowing 1 ⟨1, 1, 1, 3⟩ = true) ∧
    1 ≤ ContinuationPlanner.pageConsume ⟨1, 1, 1, 3⟩ 1 1 ∧
    ContinuationPlanner.pageConsume ⟨1, 1, 1, 3⟩ 1 1 ≤ 1 :=
  C5_overflow_threshold 1 ⟨1, 1, 1, 3⟩ ⟨1, 1, 1, 3⟩ 1 1 (by norm_num)

/-- C6 counterexample: a region with column_count = 0 (width 1, height 1) and
a valid font style makes paginate fail with ConfigError although none of the
four conditions named by the claim holds. -/
theorem C6_counterexample :
    isConfigError (PaginationEngine.paginate ['x'] ⟨1, 1, 0, 0⟩
      ⟨10, 1, .latinDominant, .plainText⟩) = true ∧
    ¬ (((⟨10, 1, .latinDominant, .plainText⟩ : FontStyle)).font_size ≤ 0 ∨
        ((⟨10, 1, .latinDominant, .plainText⟩ : FontStyle)).line_spacing ≤ 0 ∨
        ((⟨1, 1, 0, 0⟩ : LayoutRegion)).width ≤ 0 ∨
        ((⟨1, 1, 0, 0⟩ : LayoutRegion)).height ≤ 0) := by
  constructor
  · rfl
  · norm_num

/-- C6 amended: paginate fails with ConfigError exactly when font_size ≤ 0,
line_spacing ≤ 0, region.width ≤ 0, region.height ≤ 0 or region.column_count
< 1 (the non-positive column count of sections 3 and 7), while
CapacityModel.estimate fails with ConfigError exactly for the four conditions
the claim names; the model is a total function, so no other failure arises
and a failure is final for the call. -/
theorem C6_config_error (text : List Char) (region : LayoutRegion) (style : FontStyle) :
    (isConfigError (PaginationEngine.paginate text region style) = true ↔
      (style.font_size ≤ 0 ∨ style.line_spacing ≤ 0 ∨ region.width ≤ 0 ∨
        region.height ≤ 0 ∨ region.column_count < 1)) ∧
    (isConfigError (CapacityModel.estimate region style) = true ↔
      (style.font_size ≤ 0 ∨ style.line_spacing ≤ 0 ∨ region.width ≤ 0 ∨
        region.height ≤ 0)) := by
  have hest : CapacityModel.estimateInvalid region style = true ↔
      (style.font_size ≤ 0 ∨ style.line_spacing ≤ 0 ∨ region.width ≤ 0 ∨
        region.height ≤ 0) := by
    unfold CapacityModel.estimateInvalid
    simp [or_assoc]
  constructor
  · unfold PaginationEngine.paginate
    by_cases h : PaginationEngine.paginateInvalid region style = true
    · simp only [h, if_true]
      unfold PaginationEngine.paginateInvalid at h
      simp only [Bool.or_eq_true, decide_eq_true_eq] at h
      rw [hest] at h
      simp only [isConfigError, true_iff]
      tauto
    · simp only [h]
      rw [Bool.not_eq_true] at h
      simp only [h, Bool.false_eq_true, if_false]
      unfold PaginationEngine.paginateInvalid at h
      simp only [Bool.or_eq_false_iff, decide_eq_false_iff_not] at h
      rw [← Bool.not_eq_true, hest] at h
      obtain ⟨h1, h2⟩ := h
      by_cases hb : PaginationEngine.isBlank text = true
      · simp only [hb, if_true, isConfigError, false_iff]
        tauto
      · simp only [hb, Bool.false_eq_true, if_false, isConfigError, false_iff]
        tauto
  · unfold CapacityModel.estimate
    by_cases h : CapacityModel.estimateInvalid region style = true
    · simp only [h, if_true, isConfigError, true_iff]
      exact hest.mp h
    · rw [Bool.not_eq_true] at h
      simp only [h, Bool.false_eq_true, if_false, isConfigError, false_iff]
      rw [← Bool.not_eq_true, hest] at h
      exact h

/-- C7: paginate applied to empty or whitespace-only text under a valid
configuration returns a result with zero page blocks, truncated = false and
pages_used = 0, and does not fail. -/
theorem C7_blank_input (text : List Char) (region : LayoutRegion) (style : FontStyle)
    (hfs : 0 < style.font_size) (hls : 0 < style.line_spacing)
    (hw : 0 < region.width) (hh : 0 < region.height) (hcc : 1 ≤ region.column_count)
    (hblank : PaginationEngine.isBlank text = true) :
    PaginationEngine.paginate text region style = .ok ⟨[], false, 0⟩ := by
  have hinv : PaginationEngine.paginateInvalid region style = false := by
    unfold PaginationEngine.paginateInvalid CapacityModel.estimateInvalid
    simp only [Bool.or_eq_false_iff, decide_eq_false_iff_not, not_le, not_lt]
    exact ⟨⟨⟨⟨hfs, hls⟩, hw⟩, hh⟩, hcc⟩
  unfold PaginationEngine.paginate
  simp [hinv, hblank]

/-- Witness for C7: the single-space text with a 100 by 100 single-column
region and 10 pt font. -/
theorem C7_blank_input_witness :
    PaginationEngine.paginate [' '] ⟨100, 100, 1, 0⟩ ⟨10, 6 / 5, .latinDominant, .plainText⟩ =
      .ok ⟨[], false, 0⟩ :=
  C7_blank_input [' '] ⟨100, 100, 1, 0⟩ ⟨10, 6 / 5, .latinDominant, .plainText⟩
    (by norm_num) (by norm_num) (by norm_num) (by norm_num) (by norm_num) (by decide)

theorem runOps_nonneg (ops : List ControllerOp) (s : ConcurrencyStats)
    (hs : 0 ≤ s.current_requests) : 0 ≤ (runOps s ops).current_requests := by
  induction ops generalizing s with
  | nil => exact hs
  | cons op ops ih =>
    cases op with
    | acquire =>
      exact ih (acquireStats s) (by unfold acquireStats; simp only []; omega)
    | release =>
      exact ih (releaseStats s) (by unfold releaseStats; simp only []; omega)

/-- C9: acquire increments stats.current_requests by one, release clamps it
at zero via max(0, current_requests - 1), and therefore the counter stays
non-negative under every sequence of acquire and release calls starting from
the initial statistics, even when release is called more often than
acquire. -/
theorem C9_counter_nonneg :
    (∀ s : ConcurrencyStats, (acquireStats s).current_requests = s.current_requests + 1) ∧
    (∀ s : ConcurrencyStats,
      (releaseStats s).current_requests = max 0 (s.current_requests - 1)) ∧
    (∀ ops : List ControllerOp, 0 ≤ (runOps initStats ops).current_requests) := by
  refine ⟨fun s => rfl, fun s => rfl, fun ops => runOps_nonneg ops initStats (by norm_num [initStats])⟩

theorem floor_scale_le (a num den : ℤ) (ha : 0 ≤ a) (hnum : 0 ≤ num) (hlt : num < den) :
    ⌊(a : ℚ) * ((num : ℚ) / (den : ℚ))⌋ ≤ a := by
  have hden : (0 : ℚ) < (den : ℚ) := by exact_mod_cast lt_of_le_of_lt hnum hlt
  have hscale : (num : ℚ) / (den : ℚ) ≤ 1 :=
    (div_le_one hden).mpr (by exact_mod_cast hlt.le)
  have : (a : ℚ) * ((num : ℚ) / (den : ℚ)) ≤ (a : ℚ) := by
    calc (a : ℚ) * ((num : ℚ) / (den : ℚ)) ≤ (a : ℚ) * 1 :=
          mul_le_mul_of_nonneg_left hscale (by exact_mod_cast ha)
      _ = (a : ℚ) := mul_one _
  calc ⌊(a : ℚ) * ((num : ℚ) / (den : ℚ))⌋ ≤ ⌊(a : ℚ)⌋ := Int.floor_le_floor this
    _ = a := Int.floor_intCast a

/-- C10: for page_concurrency, file_count, rpm_limit and
max_global_concurrency all at least 1, calculate_optimal_concurrency returns
an adjusted page concurrency between 1 and page_concurrency, and its second
component always equals file_count unchanged — file-level concurrency is
never reduced. -/
theorem C10_concurrency_bounds
    (page_concurrency file_count rpm_limit max_global_concurrency : ℤ)
    (hpc : 1 ≤ page_concurrency) (hfc : 1 ≤ file_count) (hrpm : 1 ≤ rpm_limit)
    (hmg : 1 ≤ max_global_concurrency) :
    1 ≤ (calculate_optimal_concurrency page_concurrency file_count rpm_limit
          max_global_concurrency).1 ∧
    (calculate_optimal_concurrency page_concurrency file_count rpm_limit
        max_global_concurrency).1 ≤ page_concurrency ∧
    (calculate_optimal_concurrency page_concurrency file_count rpm_limit
        max_global_concurrency).2 = file_count := by
  unfold calculate_optimal_concurrency
  simp only []
  set tm := page_concurrency * file_count with htm
  by_cases h1 : max_global_concurrency < tm
  · simp only [h1, if_true]
    set apc1 := max 1 ⌊(page_concurrency : ℚ) *
      ((max_global_concurrency : ℚ) / (tm : ℚ))⌋ with hapc1
    have hb1 : 1 ≤ apc1 := le_max_left _ _
    have hb2 : apc1 ≤ page_concurrency := by
      apply max_le hpc
      exact floor_scale_le page_concurrency max_global_concurrency tm (by omega) (by omega) h1
    by_cases h2 : max 1 (Int.fdiv rpm_limit 2) < apc1 * file_count
    · simp only [h2, if_true]
      refine ⟨le_max_left _ _, ?_, trivial⟩
      apply le_trans (max_le hb1 ?_) (le_refl apc1) |>.trans hb2
      exact floor_scale_le apc1 (max 1 (Int.fdiv rpm_limit 2)) (apc1 * file_count)
        (by omega) (by omega) h2
    · simp only [h2, if_false]
      exact ⟨hb1, hb2, trivial⟩
  · simp only [h1, if_false]
    by_cases h2 : max 1 (Int.fdiv rpm_limit 2) < page_concurrency * file_count
    · simp only [h2, if_true]
      refine ⟨le_max_left _ _, ?_, trivial⟩
      apply max_le hpc
      exact floor_scale_le page_concurrency (max 1 (Int.fdiv rpm_limit 2))
        (page_concurrency * file_count) (by omega) (by omega) h2
    · simp only [h2, if_false]
      exact ⟨hpc, le_refl _, trivial⟩

/-- Witness for C10 at page concurrency 10, 30 files, RPM limit 100 and the
default global limit 200. -/
theorem C10_concurrency_bounds_witness :
    1 ≤ (calculate_optimal_concurrency 10 30 100 200).1 ∧
    (calculate_optimal_concurrency 10 30 100 200).1 ≤ 10 ∧
    (calculate_optimal_concurrency 10 30 100 200).2 = 30 :=
  C10_concurrency_bounds 10 30 100 200 (by norm_num) (by norm_num) (by norm_num) (by norm_num)

/-! Helper lemmas about segment construction and rendering. -/

theorem renderSegs_cons (text : List Char) (s : TextSegment) (segs : List TextSegment) :
    renderSegs text (s :: segs) = sliceOf text s ++ renderSegs text segs := by
  simp [renderSegs]

theorem renderSegs_append (text : List Char) (l₁ l₂ : List TextSegment) :
    renderSegs text (l₁ ++ l₂) = renderSegs text l₁ ++ renderSegs text l₂ := by
  simp [renderSegs]

theorem renderBlocks_cons (text : List Char) (b : PageBlock) (bs : List PageBlock) :
    renderBlocks text (b :: bs) = renderSegs text b.segments ++ renderBlocks text bs := by
  simp [renderBlocks, renderSegs]

theorem renderBlocks_singleton (text : List Char) (b : PageBlock) :
    renderBlocks text [b] = renderSegs text b.segments := by
  simp [renderBlocks, renderSegs]

theorem mkSegs_nil (page o col : ℕ) : ContinuationPlanner.mkSegs page o col [] = [] := rfl

theorem mkSegs_cons_zero (page o col : ℕ) (rest : List ℕ) :
    ContinuationPlanner.mkSegs page o col (0 :: rest) =
      ContinuationPlanner.mkSegs page o (col + 1) rest := by
  simp [ContinuationPlanner.mkSegs]

theorem mkSegs_cons_pos (page o col a : ℕ) (rest : List ℕ) (ha : a ≠ 0) :
    ContinuationPlanner.mkSegs page o col (a :: rest) =
      ⟨o, o + a, col, page⟩ :: ContinuationPlanner.mkSegs page (o + a) (col + 1) rest := by
  simp [ContinuationPlanner.mkSegs, ha]

theorem mkSegs_render (text : List Char) (page : ℕ) (alloc : List ℕ) :
    ∀ (o col : ℕ),
      renderSegs text (ContinuationPlanner.mkSegs page o col alloc) =
        (text.drop o).take alloc.sum := by
  induction alloc with
  | nil => intro o col; simp [mkSegs_nil, renderSegs]
  | cons a rest ih =>
    intro o col
    by_cases ha : a = 0
    · subst ha
      rw [mkSegs_cons_zero, ih o (col + 1)]
      simp
    · rw [mkSegs_cons_pos page o col a rest ha, renderSegs_cons, ih (o + a) (col + 1)]
      have hslice : sliceOf text ⟨o, o + a, col, page⟩ = (text.drop o).take a := by
        simp [sliceOf]
      rw [hslice, List.sum_cons, List.take_add, List.drop_drop]

theorem mkSegs_mem (page : ℕ) (alloc : List ℕ) :
    ∀ (o col : ℕ) (s : TextSegment), s ∈ ContinuationPlanner.mkSegs page o col alloc →
      s.page_index = page ∧ col ≤ s.column_index ∧
      s.column_index < col + alloc.length ∧
      o ≤ s.start_offset ∧ s.start_offset < s.end_offset ∧
      s.end_offset ≤ o + alloc.sum := by
  induction alloc with
  | nil => intro o col s hs; simp [mkSegs_nil] at hs
  | cons a rest ih =>
    intro o col s hs
    by_cases ha : a = 0
    · subst ha
      rw [mkSegs_cons_zero] at hs
      obtain ⟨h1, h2, h3, h4, h5, h6⟩ := ih o (col + 1) s hs
      refine ⟨h1, by omega, by simp only [List.length_cons]; omega, h4, h5, ?_⟩
      simp only [List.sum_cons]
      omega
    · rw [mkSegs_cons_pos page o col a rest ha] at hs
      rcases List.mem_cons.mp hs with rfl | hs
      · refine ⟨rfl, le_refl _, ?_, le_refl _, ?_, ?_⟩
        · simp only [List.length_cons]
          omega
        · show o < o + a
          omega
        · simp only [List.sum_cons]
          show o + a ≤ o + (a + rest.sum)
          omega
      · obtain ⟨h1, h2, h3, h4, h5, h6⟩ := ih (o + a) (col + 1) s hs
        refine ⟨h1, by omega, by simp only [List.length_cons]; omega, by omega, h5, ?_⟩
        simp only [List.sum_cons]
        omega

theorem mkSegs_chain (page : ℕ) (alloc : List ℕ) :
    ∀ (o col : ℕ), List.Chain' segBefore (ContinuationPlanner.mkSegs page o col alloc) := by
  induction alloc with
  | nil => intro o col; simp [mkSegs_nil]
  | cons a rest ih =>
    intro o col
    by_cases ha : a = 0
    · rw [ha, mkSegs_cons_zero]
      exact ih o (col + 1)
    · rw [mkSegs_cons_pos page o col a rest ha, List.chain'_cons']
      refine ⟨?_, ih (o + a) (col + 1)⟩
      intro t ht
      obtain ⟨h1, h2, _, _, _, _⟩ :=
        mkSegs_mem page rest (o + a) (col + 1) t (List.mem_of_mem_head? ht)
      right
      exact ⟨h1.symm, Or.inl (show col < t.column_index by omega)⟩

theorem allocate_replicate_length (r n : ℕ) (est : CapacityEstimate) :
    (ColumnAllocator.allocate r (List.replicate n est)).length = n := by
  cases n with
  | zero => rfl
  | succ m =>
    unfold ColumnAllocator.allocate
    rw [fillGreedy_length]
    simp [ColumnAllocator.limitsOf, List.replicate_succ]

theorem pageAlloc_col_le (est : CapacityEstimate) (ncols r page o : ℕ) :
    ∀ s ∈ ContinuationPlanner.mkSegs page o 0 (ContinuationPlanner.pageAlloc est ncols r),
      s.column_index ≤ ncols - 1 := by
  intro s hs
  have hcol := (mkSegs_mem page (ContinuationPlanner.pageAlloc est ncols r) o 0 s hs).2.2.1
  unfold ContinuationPlanner.pageAlloc at hcol
  by_cases h : (ColumnAllocator.allocate r (List.replicate ncols est)).sum = 0
  · simp only [h, if_true] at hcol
    simp only [List.length_cons, List.length_nil] at hcol
    omega
  · simp only [h, if_false] at hcol
    rw [allocate_replicate_length] at hcol
    have hn : ncols ≠ 0 := by
      intro h0
      subst h0
      exact h (by rfl)
    omega

theorem planLoop_succ (est : CapacityEstimate) (ncols len fuel o page : ℕ) :
    ContinuationPlanner.planLoop est ncols len (fuel + 1) o page =
      if len - (o + (ContinuationPlanner.pageAlloc est ncols (len - o)).sum) = 0 then
        ([⟨ContinuationPlanner.mkSegs page o 0 (ContinuationPlanner.pageAlloc est ncols (len - o)),
          page, page != 0⟩], false)
      else if fuel = 0 then
        ([⟨ContinuationPlanner.mkSegs page o 0 (ContinuationPlanner.pageAlloc est ncols (len - o)) ++
            [⟨o + (ContinuationPlanner.pageAlloc est ncols (len - o)).sum, len, ncols - 1, page⟩],
          page, page != 0⟩], true)
      else
        (⟨ContinuationPlanner.mkSegs page o 0 (ContinuationPlanner.pageAlloc est ncols (len - o)),
            page, page != 0⟩ ::
          (ContinuationPlanner.planLoop est ncols len fuel
            (o + (ContinuationPlanner.pageAlloc est ncols (len - o)).sum) (page + 1)).1,
         (ContinuationPlanner.planLoop est ncols len fuel
            (o + (ContinuationPlanner.pageAlloc est ncols (len - o)).sum) (page + 1)).2) := by
  rfl

theorem pageStep_sub (est : CapacityEstimate) (ncols len o : ℕ) :
    ContinuationPlanner.pageStep est ncols (len - o) =
      len - (o + (ContinuationPlanner.pageAlloc est ncols (len - o)).sum) := by
  unfold ContinuationPlanner.pageStep ContinuationPlanner.pageConsume
  omega

theorem pageStep_zero (est : CapacityEstimate) (ncols : ℕ) :
    ContinuationPlanner.pageStep est ncols 0 = 0 := by
  unfold ContinuationPlanner.pageStep
  omega

theorem pageStep_iterate_zero (est : CapacityEstimate) (ncols k : ℕ) :
    (ContinuationPlanner.pageStep est ncols)^[k] 0 = 0 := by
  induction k with
  | zero => rfl
  | succ m ih => rw [Function.iterate_succ_apply, pageStep_zero, ih]

theorem planLoop_render (text : List Char) (est : CapacityEstimate) (ncols : ℕ) :
    ∀ (fuel o page : ℕ),
      renderBlocks text
        (ContinuationPlanner.planLoop est ncols text.length (fuel + 1) o page).1 =
      text.drop o := by
  intro fuel
  induction fuel with
  | zero =>
    intro o page
    rw [planLoop_succ]
    by_cases h1 : text.length -
        (o + (ContinuationPlanner.pageAlloc est ncols (text.length - o)).sum) = 0
    · simp only [h1, if_true]
      rw [renderBlocks_singleton]
      show renderSegs text (ContinuationPlanner.mkSegs page o 0 _) = _
      rw [mkSegs_render]
      exact List.take_of_length_le (by simp only [List.length_drop]; omega)
    · simp only [h1, if_false, if_true]
      rw [renderBlocks_singleton]
      show renderSegs text
        (ContinuationPlanner.mkSegs page o 0 (ContinuationPlanner.pageAlloc est ncols
          (text.length - o)) ++ [_]) = _
      rw [renderSegs_append, mkSegs_render, renderSegs_cons]
      show _ ++ (sliceOf text
          ⟨o + (ContinuationPlanner.pageAlloc est ncols (text.length - o)).sum, text.length,
            ncols - 1, page⟩ ++ renderSegs text []) = _
      have hslice : sliceOf text
          ⟨o + (ContinuationPlanner.pageAlloc est ncols (text.length - o)).sum, text.length,
            ncols - 1, page⟩ =
          text.drop (o + (ContinuationPlanner.pageAlloc est ncols (text.length - o)).sum) := by
        unfold sliceOf
        exact List.take_of_length_le (by simp only [List.length_drop]; omega)
      rw [hslice]
      show (text.drop o).take _ ++ (text.drop _ ++ []) = _
      rw [List.append_nil, ← List.drop_drop, List.take_append_drop]
  | succ g ih =>
    intro o page
    rw [planLoop_succ]
    by_cases h1 : text.length -
        (o + (ContinuationPlanner.pageAlloc est ncols (text.length - o)).sum) = 0
    · simp only [h1, if_true]
      rw [renderBlocks_singleton]
      show renderSegs text (ContinuationPlanner.mkSegs page o 0 _) = _
      rw [mkSegs_render]
      exact List.take_of_length_le (by simp only [List.length_drop]; omega)
    · have h2 : (g + 1 ≠ 0) := Nat.succ_ne_zero g
      simp only [h1, h2, if_false]
      rw [renderBlocks_cons]
      show renderSegs text (ContinuationPlanner.mkSegs page o 0 _) ++ _ = _
      rw [mkSegs_render, ih]
      rw [← List.drop_drop, List.take_append_drop]

theorem planLoop_shape (est : CapacityEstimate) (ncols len : ℕ) :
    ∀ (fuel o page : ℕ),
      (ContinuationPlanner.planLoop est ncols len (fuel + 1) o page).1.length ≤ fuel + 1 ∧
      ((ContinuationPlanner.planLoop est ncols len (fuel + 1) o page).2 = true ↔
        ((ContinuationPlanner.planLoop est ncols len (fuel + 1) o page).1.length = fuel + 1 ∧
          0 < (ContinuationPlanner.pageStep est ncols)^[fuel + 1] (len - o))) := by
  intro fuel
  induction fuel with
  | zero =>
    intro o page
    rw [planLoop_succ]
    by_cases h1 : len - (o + (ContinuationPlanner.pageAlloc est ncols (len - o)).sum) = 0
    · simp only [h1, if_true]
      refine ⟨by simp, ?_⟩
      rw [Function.iterate_one, pageStep_sub, h1]
      simp
    · simp only [h1, if_false, if_true]
      refine ⟨by simp, ?_⟩
      rw [Function.iterate_one, pageStep_sub]
      simp only [List.length_cons, List.length_nil, true_iff, iff_true]
      exact ⟨by trivial, by omega⟩
  | succ g ih =>
    intro o page
    rw [planLoop_succ]
    by_cases h1 : len - (o + (ContinuationPlanner.pageAlloc est ncols (len - o)).sum) = 0
    · simp only [h1, if_true]
      refine ⟨by simp, ?_⟩
      rw [Function.iterate_succ_apply, pageStep_sub, h1, pageStep_iterate_zero]
      simp
    · have h2 : (g + 1 ≠ 0) := Nat.succ_ne_zero g
      simp only [h1, h2, if_false]
      obtain ⟨ihlen, ihiff⟩ :=
        ih (o + (ContinuationPlanner.pageAlloc est ncols (len - o)).sum) (page + 1)
      refine ⟨?_, ?_⟩
      · simp only [List.length_cons]
        omega
      · rw [Function.iterate_succ_apply, pageStep_sub]
        simp only [List.length_cons]
        rw [ihiff]
        constructor
        · rintro ⟨ha, hb⟩
          exact ⟨by omega, hb⟩
        · rintro ⟨ha, hb⟩
          exact ⟨by omega, hb⟩

theorem planLoop_trunc_last (est : CapacityEstimate) (ncols len : ℕ) :
    ∀ (fuel o page : ℕ),
      (ContinuationPlanner.planLoop est ncols len (fuel + 1) o page).2 = true →
      ∃ blk,
        (ContinuationPlanner.planLoop est ncols len (fuel + 1) o page).1.getLast? = some blk ∧
        blk.page_index = page + fuel ∧
        ∃ s, blk.segments.getLast? = some s ∧ s.end_offset = len ∧
          s.column_index = ncols - 1 := by
  intro fuel
  induction fuel with
  | zero =>
    intro o page htr
    rw [planLoop_succ] at htr ⊢
    by_cases h1 : len - (o + (ContinuationPlanner.pageAlloc est ncols (len - o)).sum) = 0
    · simp only [h1, if_true] at htr
      cases htr
    · simp only [h1, if_false, if_true] at htr ⊢
      refine ⟨_, List.getLast?_singleton _, show page = page + 0 by omega, ?_⟩
      exact ⟨_, List.getLast?_concat _, rfl, rfl⟩
  | succ g ih =>
    intro o page htr
    rw [planLoop_succ] at htr ⊢
    by_cases h1 : len - (o + (ContinuationPlanner.pageAlloc est ncols (len - o)).sum) = 0
    · simp only [h1, if_true] at htr
      cases htr
    · have h2 : (g + 1 ≠ 0) := Nat.succ_ne_zero g
      simp only [h1, h2, if_false] at htr ⊢
      obtain ⟨blk, hlast, hpage, s, hs, hend, hcol⟩ :=
        ih (o + (ContinuationPlanner.pageAlloc est ncols (len - o)).sum) (page + 1) htr
      refine ⟨blk, ?_, by omega, s, hs, hend, hcol⟩
      cases hrest : (ContinuationPlanner.planLoop est ncols len (g + 1)
          (o + (ContinuationPlanner.pageAlloc est ncols (len - o)).sum) (page + 1)).1 with
      | nil => rw [hrest] at hlast; cases hlast
      | cons x xs =>
        rw [hrest] at hlast
        rw [List.getLast?_cons_cons]
        exact hlast

theorem planLoop_mem (est : CapacityEstimate) (ncols len : ℕ) :
    ∀ (fuel o page : ℕ) (blk : PageBlock),
      blk ∈ (ContinuationPlanner.planLoop est ncols len (fuel + 1) o page).1 →
      page ≤ blk.page_index ∧ ∀ s ∈ blk.segments, s.page_index = blk.page_index := by
  intro fuel
  induction fuel with
  | zero =>
    intro o page blk hblk
    rw [planLoop_succ] at hblk
    by_cases h1 : len - (o + (ContinuationPlanner.pageAlloc est ncols (len - o)).sum) = 0
    · simp only [h1, if_true, List.mem_singleton] at hblk
      subst hblk
      refine ⟨le_refl _, ?_⟩
      intro s hs
      exact (mkSegs_mem page _ o 0 s hs).1
    · simp only [h1, if_false, if_true, List.mem_singleton] at hblk
      subst hblk
      refine ⟨le_refl _, ?_⟩
      intro s hs
      rcases List.mem_append.mp hs with hs | hs
      · exact (mkSegs_mem page _ o 0 s hs).1
      · rw [List.mem_singleton] at hs
        subst hs
        rfl
  | succ g ih =>
    intro o page blk hblk
    rw [planLoop_succ] at hblk
    by_cases h1 : len - (o + (ContinuationPlanner.pageAlloc est ncols (len - o)).sum) = 0
    · simp only [h1, if_true, List.mem_singleton] at hblk
      subst hblk
      refine ⟨le_refl _, ?_⟩
      intro s hs
      exact (mkSegs_mem page _ o 0 s hs).1
    · have h2 : (g + 1 ≠ 0) := Nat.succ_ne_zero g
      simp only [h1, h2, if_false, List.mem_cons] at hblk
      rcases hblk with rfl | hblk
      · refine ⟨le_refl _, ?_⟩
        intro s hs
        exact (mkSegs_mem page _ o 0 s hs).1
      · obtain ⟨hle, hsegs⟩ :=
          ih (o + (ContinuationPlanner.pageAlloc est ncols (len - o)).sum) (page + 1) blk hblk
        exact ⟨by omega, hsegs⟩

theorem planLoop_chain (est : CapacityEstimate) (ncols len : ℕ) :
    ∀ (fuel o page : ℕ),
      List.Chain' segBefore
        ((ContinuationPlanner.planLoop est ncols len (fuel + 1) o page).1.map
          PageBlock.segments).flatten := by
  intro fuel
  induction fuel with
  | zero =>
    intro o page
    rw [planLoop_succ]
    by_cases h1 : len - (o + (ContinuationPlanner.pageAlloc est ncols (len - o)).sum) = 0
    · simp only [h1, if_true, List.map_cons, List.map_nil, List.flatten_cons,
        List.flatten_nil, List.append_nil]
      exact mkSegs_chain page _ o 0
    · simp only [h1, if_false, if_true, List.map_cons, List.map_nil, List.flatten_cons,
        List.flatten_nil, List.append_nil]
      rw [List.chain'_append]
      refine ⟨mkSegs_chain page _ o 0, by simp, ?_⟩
      intro x hx y hy
      have hxm := List.mem_of_mem_getLast? hx
      obtain ⟨hxpage, _, _, _, hxse, hxend⟩ :=
        mkSegs_mem page _ o 0 x hxm
      have hxcol := pageAlloc_col_le est ncols (len - o) page o x hxm
      rw [List.head?_cons, Option.mem_def, Option.some.injEq] at hy
      subst hy
      unfold segBefore
      dsimp only
      omega
  | succ g ih =>
    intro o page
    rw [planLoop_succ]
    by_cases h1 : len - (o + (ContinuationPlanner.pageAlloc est ncols (len - o)).sum) = 0
    · simp only [h1, if_true, List.map_cons, List.map_nil, List.flatten_cons,
        List.flatten_nil, List.append_nil]
      exact mkSegs_chain page _ o 0
    · have h2 : (g + 1 ≠ 0) := Nat.succ_ne_zero g
      simp only [h1, h2, if_false, List.map_cons, List.flatten_cons]
      rw [List.chain'_append]
      refine ⟨mkSegs_chain page _ o 0,
        ih (o + (ContinuationPlanner.pageAlloc est ncols (len - o)).sum) (page + 1), ?_⟩
      intro x hx y hy
      have hxm := List.mem_of_mem_getLast? hx
      have hxpage := (mkSegs_mem page _ o 0 x hxm).1
      have hym := List.mem_of_mem_head? hy
      obtain ⟨l, hl, hyl⟩ := List.mem_flatten.mp hym
      obtain ⟨blk, hblk, rfl⟩ := List.mem_map.mp hl
      obtain ⟨hble, hbsegs⟩ :=
        planLoop_mem est ncols len g
          (o + (ContinuationPlanner.pageAlloc est ncols (len - o)).sum) (page + 1) blk hblk
      have hypage := hbsegs y hyl
      unfold segBefore
      omega

/-- C1 counterexample: for the whitespace-only text consisting of one space
and a valid configuration, paginate returns zero page blocks (as section 4.5
prescribes), so the concatenation of all its segments is the empty string and
does not reproduce the text — the universally quantified no-loss claim fails
on whitespace-only input. -/
theorem C1_counterexample :
    PaginationEngine.paginate [' '] ⟨100, 100, 1, 0⟩ ⟨10, 6 / 5, .latinDominant, .plainText⟩ =
      .ok ⟨[], false, 0⟩ ∧
    renderedText [' '] ⟨[], false, 0⟩ ≠ [' '] := by
  constructor
  · have hinv : PaginationEngine.paginateInvalid ⟨100, 100, 1, 0⟩
        ⟨10, 6 / 5, .latinDominant, .plainText⟩ = false := by
      unfold PaginationEngine.paginateInvalid CapacityModel.estimateInvalid
      simp only [Bool.or_eq_false_iff, decide_eq_false_iff_not, not_le, not_lt]
      norm_num
    have hb : PaginationEngine.isBlank [' '] = true := by decide
    unfold PaginationEngine.paginate
    simp [hinv, hb]
  · decide

/-- C1 amended: for every text that is empty or contains at least one
non-whitespace character (whitespace-only non-empty text is instead dropped
with zero page blocks), under a valid configuration paginate succeeds and the
concatenation of the slices of all TextSegments of the result, which are
strictly sorted by (page_index, column_index, start_offset), reproduces the
text exactly — every character placed exactly once, no gaps, no duplicates,
also when the result is truncated. -/
theorem C1_no_loss (text : List Char) (region : LayoutRegion) (style : FontStyle)
    (hfs : 0 < style.font_size) (hls : 0 < style.line_spacing)
    (hw : 0 < region.width) (hh : 0 < region.height) (hcc : 1 ≤ region.column_count)
    (hblank : PaginationEngine.isBlank text = true → text = []) :
    ∃ res, PaginationEngine.paginate text region style = Except.ok res ∧
      renderedText text res = text ∧
      List.Chain' segBefore (segmentsOf res) ∧
      List.Pairwise segBefore (segmentsOf res) := by
  have hinv : PaginationEngine.paginateInvalid region style = false := by
    unfold PaginationEngine.paginateInvalid CapacityModel.estimateInvalid
    simp only [Bool.or_eq_false_iff, decide_eq_false_iff_not, not_le, not_lt]
    exact ⟨⟨⟨⟨hfs, hls⟩, hw⟩, hh⟩, hcc⟩
  by_cases hb : PaginationEngine.isBlank text = true
  · have htext : text = [] := hblank hb
    subst htext
    refine ⟨⟨[], false, 0⟩, ?_, rfl, ?_, ?_⟩
    · unfold PaginationEngine.paginate
      simp [hinv, hb]
    · simp [segmentsOf]
    · simp [segmentsOf]
  · rw [Bool.not_eq_true] at hb
    have hchain := planLoop_chain (CapacityModel.estimateCore region style)
      region.column_count text.length ContinuationPlanner.MAX_DEPTH 0 0
    refine ⟨⟨(ContinuationPlanner.planLoop (CapacityModel.estimateCore region style)
        region.column_count text.length (ContinuationPlanner.MAX_DEPTH + 1) 0 0).1,
      (ContinuationPlanner.planLoop (CapacityModel.estimateCore region style)
        region.column_count text.length (ContinuationPlanner.MAX_DEPTH + 1) 0 0).2,
      (ContinuationPlanner.planLoop (CapacityModel.estimateCore region style)
        region.column_count text.length (ContinuationPlanner.MAX_DEPTH + 1) 0 0).1.length⟩,
      ?_, ?_, hchain, List.chain'_iff_pairwise.mp hchain⟩
    · unfold PaginationEngine.paginate
      simp [hinv, hb]
    · show renderBlocks text (ContinuationPlanner.planLoop (CapacityModel.estimateCore region
        style) region.column_count text.length (ContinuationPlanner.MAX_DEPTH + 1) 0 0).1 = text
      rw [planLoop_render]
      exact List.drop_zero text

/-- Witness for C1 amended at a concrete two-character text and a valid
single-column configuration. -/
theorem C1_no_loss_witness :
    ∃ res, PaginationEngine.paginate ['h', 'i'] ⟨100, 100, 1, 0⟩
        ⟨10, 6 / 5, .latinDominant, .plainText⟩ = Except.ok res ∧
      renderedText ['h', 'i'] res = ['h', 'i'] ∧
      List.Chain' segBefore (segmentsOf res) ∧
      List.Pairwise segBefore (segmentsOf res) :=
  C1_no_loss ['h', 'i'] ⟨100, 100, 1, 0⟩ ⟨10, 6 / 5, .latinDominant, .plainText⟩
    (by norm_num) (by norm_num) (by norm_num) (by norm_num) (by norm_num) (by decide)

/-- C2: for every valid configuration and text, paginate terminates with
pages_used = number of returned page blocks, pages_used ≤ MAX_DEPTH + 1, and
truncated = true exactly when pages_used = MAX_DEPTH + 1 and residual text
remained after the normal allocation of all MAX_DEPTH + 1 pages (the residual
is expressed by iterating the per-page consumption step); in that case the
remaining text is force-placed as the final segment of the last column
(column_count - 1) of the last page (page index MAX_DEPTH), ending at the end
of the text. -/
theorem C2_termination_bound (text : List Char) (region : LayoutRegion) (style : FontStyle)
    (hfs : 0 < style.font_size) (hls : 0 < style.line_spacing)
    (hw : 0 < region.width) (hh : 0 < region.height) (hcc : 1 ≤ region.column_count) :
    ∃ res, PaginationEngine.paginate text region style = Except.ok res ∧
      res.pages_used = res.pages.length ∧
      res.pages_used ≤ ContinuationPlanner.MAX_DEPTH + 1 ∧
      (res.truncated = true ↔ (res.pages_used = ContinuationPlanner.MAX_DEPTH + 1 ∧
        0 < (ContinuationPlanner.pageStep (CapacityModel.estimateCore region style)
              region.column_count)^[ContinuationPlanner.MAX_DEPTH + 1] text.length)) ∧
      (res.truncated = true → ∃ blk, res.pages.getLast? = some blk ∧
        blk.page_index = ContinuationPlanner.MAX_DEPTH ∧
        ∃ s, blk.segments.getLast? = some s ∧ s.end_offset = text.length ∧
          s.column_index = region.column_count - 1) := by
  have hinv : PaginationEngine.paginateInvalid region style = false := by
    unfold PaginationEngine.paginateInvalid CapacityModel.estimateInvalid
    simp only [Bool.or_eq_false_iff, decide_eq_false_iff_not, not_le, not_lt]
    exact ⟨⟨⟨⟨hfs, hls⟩, hw⟩, hh⟩, hcc⟩
  by_cases hb : PaginationEngine.isBlank text = true
  · refine ⟨⟨[], false, 0⟩, ?_, rfl, Nat.zero_le _, ?_, ?_⟩
    · unfold PaginationEngine.paginate
      simp [hinv, hb]
    · constructor
      · intro h
        simp at h
      · rintro ⟨h, _⟩
        exact absurd h (by decide)
    · intro h
      simp at h
  · rw [Bool.not_eq_true] at hb
    obtain ⟨hlen, hiff⟩ := planLoop_shape (CapacityModel.estimateCore region style)
      region.column_count text.length ContinuationPlanner.MAX_DEPTH 0 0
    rw [Nat.sub_zero] at hiff
    refine ⟨⟨(ContinuationPlanner.planLoop (CapacityModel.estimateCore region style)
        region.column_count text.length (ContinuationPlanner.MAX_DEPTH + 1) 0 0).1,
      (ContinuationPlanner.planLoop (CapacityModel.estimateCore region style)
        region.column_count text.length (ContinuationPlanner.MAX_DEPTH + 1) 0 0).2,
      (ContinuationPlanner.planLoop (CapacityModel.estimateCore region style)
        region.column_count text.length (ContinuationPlanner.MAX_DEPTH + 1) 0 0).1.length⟩,
      ?_, rfl, hlen, hiff, ?_⟩
    · unfold PaginationEngine.paginate
      simp [hinv, hb]
    · intro htr
      obtain ⟨blk, hlast, hpage, s, hs, hend, hcol⟩ :=
        planLoop_trunc_last (CapacityModel.estimateCore region style)
          region.column_count text.length ContinuationPlanner.MAX_DEPTH 0 0 htr
      exact ⟨blk, hlast, by rw [hpage]; exact Nat.zero_add _, s, hs, hend, hcol⟩

/-- Witness for C2 at a concrete long text (300 characters) and a small valid
region, driving the planner through the truncation bound. -/
theorem C2_termination_bound_witness :
    ∃ res, PaginationEngine.paginate (List.replicate 300 'a') ⟨3, 3, 1, 0⟩
        ⟨10, 6 / 5, .latinDominant, .plainText⟩ = Except.ok res ∧
      res.pages_used = res.pages.length ∧
      res.pages_used ≤ ContinuationPlanner.MAX_DEPTH + 1 ∧
      (res.truncated = true ↔ (res.pages_used = ContinuationPlanner.MAX_DEPTH + 1 ∧
        0 < (ContinuationPlanner.pageStep
              (CapacityModel.estimateCore ⟨3, 3, 1, 0⟩ ⟨10, 6 / 5, .latinDominant, .plainText⟩)
              (1 : ℕ))^[ContinuationPlanner.MAX_DEPTH + 1] (List.replicate 300 'a').length)) ∧
      (res.truncated = true → ∃ blk, res.pages.getLast? = some blk ∧
        blk.page_index = ContinuationPlanner.MAX_DEPTH ∧
        ∃ s, blk.segments.getLast? = some s ∧ s.end_offset = (List.replicate 300 'a').length ∧
          s.column_index = (1 : ℕ) - 1) :=
  C2_termination_bound (List.replicate 300 'a') ⟨3, 3, 1, 0⟩
    ⟨10, 6 / 5, .latinDominant, .plainText⟩
    (by norm_num) (by norm_num) (by norm_num) (by norm_num) (by norm_num)

theorem toNat_floor_mono {a b : ℚ} (h : a ≤ b) : (⌊a⌋).toNat ≤ (⌊b⌋).toNat :=
  Int.toNat_le_toNat (Int.floor_le_floor h)

theorem effective_of_parts_mono (r1 r2 : LayoutRegion) (s1 s2 : FontStyle)
    (hc : (CapacityModel.estimateCore r1 s1).chars_per_line ≤
      (CapacityModel.estimateCore r2 s2).chars_per_line)
    (hl : (CapacityModel.estimateCore r1 s1).lines_per_column ≤
      (CapacityModel.estimateCore r2 s2).lines_per_column) :
    (CapacityModel.estimateCore r1 s1).effective_capacity ≤
      (CapacityModel.estimateCore r2 s2).effective_capacity := by
  rw [estimateCore_effective, estimateCore_effective, estimateCore_raw, estimateCore_raw]
  exact Nat.div_le_div_right (Nat.mul_le_mul hc hl)

theorem charWidthFactor_pos (p : ScriptProfile) : 0 < CapacityModel.charWidthFactor p := by
  cases p <;> norm_num [CapacityModel.charWidthFactor]

theorem verticalOverheadMultiplier_pos (m : ContentMode) :
    0 < CapacityModel.verticalOverheadMultiplier m := by
  cases m <;> norm_num [CapacityModel.verticalOverheadMultiplier]

theorem lineHeight_pos (style : FontStyle) (hfs : 0 < style.font_size)
    (hls : 0 < style.line_spacing) : 0 < CapacityModel.lineHeight style := by
  have hm := verticalOverheadMultiplier_pos style.content_mode
  unfold CapacityModel.lineHeight
  positivity

/-- C8: CapacityModel.estimate is monotone in the region geometry and
antitone in the font size — a wider or taller region never yields a smaller
effective_capacity, and a larger font size never yields a larger one, all
other inputs fixed. -/
theorem C8_monotonicity (region : LayoutRegion) (style : FontStyle) (w' h' f' : ℚ)
    (hfs : 0 < style.font_size) (hls : 0 < style.line_spacing)
    (hw : 0 < region.width) (hh : 0 < region.height)
    (hw' : region.width ≤ w') (hh' : region.height ≤ h') (hf' : style.font_size ≤ f') :
    (CapacityModel.estimateCore region style).effective_capacity ≤
      (CapacityModel.estimateCore { region with width := w' } style).effective_capacity ∧
    (CapacityModel.estimateCore region style).effective_capacity ≤
      (CapacityModel.estimateCore { region with height := h' } style).effective_capacity ∧
    (CapacityModel.estimateCore region { style with font_size := f' }).effective_capacity ≤
      (CapacityModel.estimateCore region style).effective_capacity := by
  have hfacpos := charWidthFactor_pos style.script_profile
  have hmpos := verticalOverheadMultiplier_pos style.content_mode
  have hcast : (0 : ℚ) ≤ (region.column_count : ℚ) := Nat.cast_nonneg _
  refine ⟨?_, ?_, ?_⟩
  · apply effective_of_parts_mono
    · rw [estimateCore_chars, estimateCore_chars]
      apply toNat_floor_mono
      apply div_le_div_of_nonneg_right ?_ (mul_nonneg hfs.le hfacpos.le)
      exact div_le_div_of_nonneg_right hw' hcast
    · rw [estimateCore_lines, estimateCore_lines]
  · apply effective_of_parts_mono
    · rw [estimateCore_chars, estimateCore_chars]
      exact le_refl _
    · rw [estimateCore_lines, estimateCore_lines]
      apply toNat_floor_mono
      exact div_le_div_of_nonneg_right hh'
        (lineHeight_pos style hfs hls).le
  · apply effective_of_parts_mono
    · rw [estimateCore_chars, estimateCore_chars]
      apply toNat_floor_mono
      have h1 : (0 : ℚ) ≤ CapacityModel.columnWidth region :=
        div_nonneg hw.le hcast
      have h2 : 0 < style.font_size * CapacityModel.charWidthFactor style.script_profile :=
        mul_pos hfs hfacpos
      have h3 : style.font_size * CapacityModel.charWidthFactor style.script_profile ≤
          f' * CapacityModel.charWidthFactor style.script_profile :=
        mul_le_mul_of_nonneg_right hf' hfacpos.le
      exact div_le_div_of_nonneg_left h1 h2 h3
    · rw [estimateCore_lines, estimateCore_lines]
      apply toNat_floor_mono
      have h2 : 0 < CapacityModel.lineHeight style := lineHeight_pos style hfs hls
      have h3 : CapacityModel.lineHeight style ≤
          CapacityModel.lineHeight { style with font_size := f' } := by
        unfold CapacityModel.lineHeight
        exact mul_le_mul_of_nonneg_right
          (mul_le_mul_of_nonneg_right hf' hls.le) hmpos.le
      exact div_le_div_of_nonneg_left hh.le h2 h3

/-- Witness for C8 at the 400 by 600 region, growing the width to 500, the
height to 700, and the font size from 20 to 24. -/
theorem C8_monotonicity_witness :
    (CapacityModel.estimateCore ⟨400, 600, 2, 0⟩
        ⟨20, 6 / 5, .cjkDominant, .renderedMarkup⟩).effective_capacity ≤
      (CapacityModel.estimateCore { (⟨400, 600, 2, 0⟩ : LayoutRegion) with width := 500 }
        ⟨20, 6 / 5, .cjkDominant, .renderedMarkup⟩).effective_capacity ∧
    (CapacityModel.estimateCore ⟨400, 600, 2, 0⟩
        ⟨20, 6 / 5, .cjkDominant, .renderedMarkup⟩).effective_capacity ≤
      (CapacityModel.estimateCore { (⟨400, 600, 2, 0⟩ : LayoutRegion) with height := 700 }
        ⟨20, 6 / 5, .cjkDominant, .renderedMarkup⟩).effective_capacity ∧
    (CapacityModel.estimateCore ⟨400, 600, 2, 0⟩
        { (⟨20, 6 / 5, .cjkDominant, .renderedMarkup⟩ : FontStyle) with
          font_size := 24 }).effective_capacity ≤
      (CapacityModel.estimateCore ⟨400, 600, 2, 0⟩
        ⟨20, 6 / 5, .cjkDominant, .renderedMarkup⟩).effective_capacity :=
  C8_monotonicity ⟨400, 600, 2, 0⟩ ⟨20, 6 / 5, .cjkDominant, .renderedMarkup⟩ 500 700 24
    (by norm_num) (by norm_num) (by norm_num) (by norm_num)
    (by norm_num) (by norm_num) (by norm_num)
